import Mathlib

/-!
Verification of the Pebble client runtime (client/pebble_client.cpp) and the
ZooKeeper client bookkeeping (source/common/zookeeper_client.h) by shallow
embedding in Lean 4.

Modelling conventions:
* `Handle` stands for the C++ `int64_t` connection handle (`Int`).
* `ProcId` stands for the identity of an `IProcessor*` instance (`Nat`);
  a nullable `IProcessor*` is `Option ProcId`.
* `cxx::unordered_map<int64_t, IProcessor*> m_processor_map` is modelled as
  the function `Handle → Option ProcId` (absent key = `none`).
* `cxx::unordered_map<Router*, std::vector<int64_t>> m_router_handle_map` is
  modelled as `Nat → Option (List Handle)` with `Nat` standing for `Router*`.
* Return codes are `Int` exactly as the C++ `int32_t` values produced.
-/

namespace Pebble

abbrev Handle := Int

abbrev ProcId := Nat

/-- State of `PebbleClient` relevant to the processor registry and router
reconciliation: `m_processor_map`, `m_router_handle_map`, `m_last_msg_info`
(only its `_remote_handle` field is read by `OnMessage`). -/
structure ClientState where
  processor_map : Handle → Option ProcId
  router_handle_map : Nat → Option (List Handle)
  last_msg_remote : Handle

/-- Embedding of `PebbleClient::Attach(int64_t handle, IProcessor* processor)`:
returns -1 when `processor` is NULL leaving the map untouched, otherwise
stores `m_processor_map[handle] = processor` and returns 0. -/
def Attach (st : ClientState) (handle : Handle) (processor : Option ProcId) :
    Int × ClientState :=
  match processor with
  | none => (-1, st)
  | some p =>
    (0, { st with
            processor_map := fun h => if h = handle then some p else st.processor_map h })

/-- Embedding of `PebbleClient::Detach(int64_t handle)`: `m_processor_map.erase(handle)`,
returning 0 when one element was erased and -1 otherwise. -/
def Detach (st : ClientState) (handle : Handle) : Int × ClientState :=
  match st.processor_map handle with
  | some _ =>
    (0, { st with
            processor_map := fun h => if h = handle then none else st.processor_map h })
  | none => (-1, st)

/-- Embedding of `MsgExternInfo`: the two fields `PebbleClient::OnMessage` reads. -/
structure MsgInfo where
  self_handle : Handle
  remote_handle : Handle
deriving DecidableEq

/-- One call `it->second->OnMessage(remote, msg, msg_len, info, 0)` made by
`PebbleClient::OnMessage` to an attached processor. -/
structure DispatchCall where
  proc : ProcId
  remote : Handle
  msg : List Nat
deriving DecidableEq

/-- Result of `PebbleClient::OnMessage`: the `int32_t` return value, the list
of processor dispatches performed, and the number of `PLOG_ERROR` emissions. -/
structure OnMessageResult where
  ret : Int
  dispatches : List DispatchCall
  error_logs : Nat
deriving DecidableEq

/-- Embedding of `PebbleClient::OnMessage(msg, msg_len, info)`: looks `info->_self_handle`
up in `m_processor_map`; if absent it logs an error and dispatches nothing,
otherwise it calls the attached processor once, passing
`m_last_msg_info._remote_handle`.  Returns 1 in both cases. -/
def OnMessage (st : ClientState) (msg : List Nat) (info : MsgInfo) : OnMessageResult :=
  match st.processor_map info.self_handle with
  | none => ⟨1, [], 1⟩
  | some p => ⟨1, [⟨p, st.last_msg_remote, msg⟩], 0⟩

/-- The first loop of `PebbleClient::OnRouterAddressChanged`: call
`Attach(h, processor)` for every handle in `handles`, in order. -/
def attachAll (st : ClientState) (handles : List Handle) (processor : Option ProcId) :
    ClientState :=
  handles.foldl (fun s h => (Attach s h processor).2) st

/-- The detach loop of `PebbleClient::OnRouterAddressChanged`: call
`Detach(h)` for every previously delivered handle, in order. -/
def detachAll (st : ClientState) (handles : List Handle) : ClientState :=
  handles.foldl (fun s h => (Detach s h).2) st

/-- Embedding of `PebbleClient::OnRouterAddressChanged(router, handles, processor)`:
if the router has no recorded delivery, attach every handle and record the
list; otherwise detach every previously recorded handle, then attach every
new handle, then record the new list. -/
def OnRouterAddressChanged (st : ClientState) (router : Nat) (handles : List Handle)
    (processor : Option ProcId) : ClientState :=
  match st.router_handle_map router with
  | none =>
    let st1 := attachAll st handles processor
    { st1 with
        router_handle_map := fun r => if r = router then some handles
                                      else st1.router_handle_map r }
  | some old =>
    let st1 := detachAll st old
    let st2 := attachAll st1 handles processor
    { st2 with
        router_handle_map := fun r => if r = router then some handles
                                      else st2.router_handle_map r }

theorem detach_processor_map (st : ClientState) (handle x : Handle) :
    (Detach st handle).2.processor_map x =
      if x = handle then none else st.processor_map x := by
  unfold Detach
  cases hl : st.processor_map handle with
  | none =>
    by_cases hx : x = handle <;> simp [hx, hl]
  | some p => simp

theorem attachAll_processor_map (handles : List Handle) (st : ClientState)
    (p : ProcId) (x : Handle) :
    (attachAll st handles (some p)).processor_map x =
      if x ∈ handles then some p else st.processor_map x := by
  induction handles generalizing st with
  | nil => simp [attachAll]
  | cons a l ih =>
    show (attachAll (Attach st a (some p)).2 l (some p)).processor_map x = _
    rw [ih]
    by_cases hl : x ∈ l
    · simp [hl]
    · by_cases ha : x = a <;> simp [hl, ha, Attach]

theorem detachAll_processor_map (handles : List Handle) (st : ClientState) (x : Handle) :
    (detachAll st handles).processor_map x =
      if x ∈ handles then none else st.processor_map x := by
  induction handles generalizing st with
  | nil => simp [detachAll]
  | cons a l ih =>
    show (detachAll (Detach st a).2 l).processor_map x = _
    rw [ih, detach_processor_map]
    by_cases hl : x ∈ l
    · simp [hl]
    · by_cases ha : x = a <;> simp [hl, ha]

theorem attachAll_router_handle_map (handles : List Handle) (st : ClientState)
    (processor : Option ProcId) :
    (attachAll st handles processor).router_handle_map = st.router_handle_map := by
  induction handles generalizing st with
  | nil => rfl
  | cons a l ih =>
    show (attachAll (Attach st a processor).2 l processor).router_handle_map = _
    rw [ih]
    cases processor <;> rfl

theorem detachAll_router_handle_map (handles : List Handle) (st : ClientState) :
    (detachAll st handles).router_handle_map = st.router_handle_map := by
  induction handles generalizing st with
  | nil => rfl
  | cons a l ih =>
    show (detachAll (Detach st a).2 l).router_handle_map = _
    rw [ih]
    unfold Detach
    cases st.processor_map a <;> rfl

/-- Claim C1: after `OnRouterAddressChanged` delivers handle list `S` for a
router with a non-NULL processor `p`, every handle in `S` is mapped to `p`;
every previously delivered handle outside `S` is detached; on the very first
delivery handles outside `S` are untouched (no detaches); and `S` is recorded
as the router's delivered list. -/
theorem C1_router_full_replace (st : ClientState) (router : Nat) (S : List Handle)
    (p : ProcId) :
    (∀ h ∈ S, (OnRouterAddressChanged st router S (some p)).processor_map h = some p) ∧
    (∀ old, st.router_handle_map router = some old →
      ∀ h ∈ old, h ∉ S →
        (OnRouterAddressChanged st router S (some p)).processor_map h = none) ∧
    (st.router_handle_map router = none →
      ∀ h, h ∉ S →
        (OnRouterAddressChanged st router S (some p)).processor_map h =
          st.processor_map h) ∧
    (OnRouterAddressChanged st router S (some p)).router_handle_map router = some S := by
  unfold OnRouterAddressChanged
  cases hr : st.router_handle_map router with
  | none =>
    refine ⟨fun h hh => ?_, fun old hold => by simp [hr] at hold, fun _ h hh => ?_, by simp⟩
    · simp [attachAll_processor_map, hh]
    · simp [attachAll_processor_map, hh]
  | some old =>
    refine ⟨fun h hh => ?_, fun old2 hold2 h hold hS => ?_, fun hnone => by simp [hr] at hnone,
      by simp⟩
    · simp [attachAll_processor_map, hh]
    · have : old2 = old := (Option.some.inj hold2).symm
      subst this
      simp [attachAll_processor_map, detachAll_processor_map, hS, hold]

/-- A concrete client state used to instantiate the claim theorems: handles 1
and 2 are attached to processor 5, and router 0 has previously delivered
handles 1 and 2. -/
def sampleState : ClientState where
  processor_map := fun h => if h = 1 ∨ h = 2 then some 5 else none
  router_handle_map := fun r => if r = 0 then some [1, 2] else none
  last_msg_remote := 9

theorem C1_router_full_replace_witness :
    (OnRouterAddressChanged sampleState 0 [2, 3] (some 7)).processor_map 3 = some 7 ∧
    (OnRouterAddressChanged sampleState 0 [2, 3] (some 7)).processor_map 2 = some 7 ∧
    (OnRouterAddressChanged sampleState 0 [2, 3] (some 7)).processor_map 1 = none ∧
    (OnRouterAddressChanged sampleState 0 [2, 3] (some 7)).router_handle_map 0 =
      some [2, 3] :=
  ⟨(C1_router_full_replace sampleState 0 [2, 3] 7).1 3 (by decide),
   (C1_router_full_replace sampleState 0 [2, 3] 7).1 2 (by decide),
   (C1_router_full_replace sampleState 0 [2, 3] 7).2.1 [1, 2] rfl 1 (by decide) (by decide),
   (C1_router_full_replace sampleState 0 [2, 3] 7).2.2.2⟩

/-- Claim C9: `Attach(handle, processor)` with a NULL processor fails with a
negative status and leaves the registry mapping for that handle unchanged;
with a non-NULL processor it returns 0 and records the mapping. -/
theorem C9_attach_validation (st : ClientState) (handle : Handle) :
    ((Attach st handle none).1 < 0 ∧
      (Attach st handle none).2.processor_map handle = st.processor_map handle) ∧
    (∀ p : ProcId,
      (Attach st handle (some p)).1 = 0 ∧
      (Attach st handle (some p)).2.processor_map handle = some p) := by
  refine ⟨⟨by simp [Attach], by simp [Attach]⟩, fun p => ⟨rfl, by simp [Attach]⟩⟩

/-- One registry operation on a fixed handle: a successful-argument
`Attach(handle, p)` call or a `Detach(handle)` call. -/
inductive RegEvent where
  | attachEv (p : ProcId)
  | detachEv
deriving DecidableEq

/-- Apply one registry operation to the client state. -/
def regStep (handle : Handle) (st : ClientState) : RegEvent → ClientState
  | .attachEv p => (Attach st handle (some p)).2
  | .detachEv => (Detach st handle).2

/-- Run a sequence of `Attach`/`Detach` calls on one handle, oldest first. -/
def runEvents (st : ClientState) (handle : Handle) (evs : List RegEvent) : ClientState :=
  evs.foldl (regStep handle) st

/-- Scanning the history from the most recent event backwards: the most
recent event decides — a final `Attach p` is the most recent attach and no
detach follows it; a final `Detach` follows every attach in the history. -/
def mostRecentAttachOfRev : List RegEvent → Option ProcId
  | [] => none
  | RegEvent.attachEv p :: _ => some p
  | RegEvent.detachEv :: _ => none

/-- The processor of the most recent `Attach` not followed by a `Detach` in
a chronological event list (`none` when no such attach exists). -/
def mostRecentAttach (evs : List RegEvent) : Option ProcId :=
  mostRecentAttachOfRev evs.reverse

/-- Claim C3: after any non-empty sequence of `Attach`/`Detach` calls on one
handle, the registry maps the handle to the most recent `Attach` not
followed by a `Detach` (and to nothing if a `Detach` is most recent), a
subsequent `OnMessage` for that handle dispatches to exactly that processor,
and attaching over an existing different mapping succeeds and overwrites. -/
theorem C3_last_write_wins (st : ClientState) (handle : Handle) (evs : List RegEvent)
    (msg : List Nat) (remote : Handle) (hne : evs ≠ []) :
    ((runEvents st handle evs).processor_map handle = mostRecentAttach evs) ∧
    (∀ p, mostRecentAttach evs = some p →
      (OnMessage (runEvents st handle evs) msg ⟨handle, remote⟩).dispatches =
        [⟨p, (runEvents st handle evs).last_msg_remote, msg⟩]) ∧
    (∀ p q, st.processor_map handle = some q →
      (Attach st handle (some p)).1 = 0 ∧
      (Attach st handle (some p)).2.processor_map handle = some p) := by
  have hmain : (runEvents st handle evs).processor_map handle = mostRecentAttach evs := by
    rcases List.eq_nil_or_concat evs with h | ⟨rest, e, rfl⟩
    · exact absurd h hne
    · rw [List.concat_eq_append, runEvents, List.foldl_append]
      rw [mostRecentAttach, List.reverse_append]
      cases e with
      | attachEv p => simp [regStep, Attach, mostRecentAttachOfRev]
      | detachEv => simp [regStep, detach_processor_map, mostRecentAttachOfRev]
  refine ⟨hmain, fun p hp => ?_, fun p q hq => ⟨rfl, by simp [Attach]⟩⟩
  simp [OnMessage, hmain, hp]

theorem C3_last_write_wins_witness :
    (runEvents sampleState 1 [RegEvent.attachEv 4, RegEvent.detachEv,
        RegEvent.attachEv 6]).processor_map 1 = some 6 ∧
    (OnMessage (runEvents sampleState 1 [RegEvent.attachEv 4, RegEvent.detachEv,
        RegEvent.attachEv 6]) [10] ⟨1, 2⟩).dispatches = [⟨6, 9, [10]⟩] := by
  have h := C3_last_write_wins sampleState 1
    [RegEvent.attachEv 4, RegEvent.detachEv, RegEvent.attachEv 6] [10] 2 (by decide)
  refine ⟨?_, ?_⟩
  · rw [h.1]; rfl
  · have h2 := h.2.1 6 rfl
    rw [h2]
    rfl

/-- Claim C8: for every inbound message, if the message's self handle has an
attached processor then `OnMessage` makes exactly one dispatch, to that
processor; if no processor is attached nothing is dispatched and one error
is logged. -/
theorem C8_dispatch_drop_on_unknown (st : ClientState) (msg : List Nat) (info : MsgInfo) :
    (∀ p, st.processor_map info.self_handle = some p →
      (OnMessage st msg info).dispatches = [⟨p, st.last_msg_remote, msg⟩] ∧
      (OnMessage st msg info).error_logs = 0) ∧
    (st.processor_map info.self_handle = none →
      (OnMessage st msg info).dispatches = [] ∧
      (OnMessage st msg info).error_logs = 1) := by
  constructor
  · intro p hp
    unfold OnMessage
    rw [hp]
    exact ⟨rfl, rfl⟩
  · intro hn
    unfold OnMessage
    rw [hn]
    exact ⟨rfl, rfl⟩

theorem C8_dispatch_drop_on_unknown_witness :
    ((OnMessage sampleState [3] ⟨1, 0⟩).dispatches = [⟨5, 9, [3]⟩] ∧
      (OnMessage sampleState [3] ⟨1, 0⟩).error_logs = 0) ∧
    ((OnMessage sampleState [3] ⟨4, 0⟩).dispatches = [] ∧
      (OnMessage sampleState [3] ⟨4, 0⟩).error_logs = 1) :=
  ⟨(C8_dispatch_drop_on_unknown sampleState [3] ⟨1, 0⟩).1 5 (by decide),
   (C8_dispatch_drop_on_unknown sampleState [3] ⟨4, 0⟩).2 (by decide)⟩

/-- The sub-steps of `PebbleClient::Update`, tagged in the order the code
names them. -/
inductive Step where
  | transport
  | naming
  | processor
  | timer
  | session
  | stat
deriving DecidableEq

/-- Environment for one `PebbleClient::Update` pass: the values returned by
each collaborator call the code makes.  A `none` component models a NULL
member pointer (its step is skipped); each list element models one active
array slot.  `processor_events` are the `IProcessor::Update()` return
values, which the code calls but whose results it discards. -/
structure UpdateEnv where
  message_events : Int
  naming_events : List Int
  processor_events : List Int
  timer_events : Option Int
  session_timeouts : Option Int
  stat_events : Option Int
deriving DecidableEq

/-- Contribution of an optional member: `m ? m->Update() : skipped`. -/
def optEvents : Option Int → Int
  | some k => k
  | none => 0

/-- Embedding of `PebbleClient::Update()`: pump `Message::Update`, update every non-NULL
naming backend, update every non-NULL processor (return value discarded),
update the timer, check session timeouts, update statistics; return the
accumulated `num`.  The second component records each collaborator call made,
in execution order. -/
def Update (env : UpdateEnv) : Int × List Step :=
  (env.message_events
     + env.naming_events.foldl (fun a b => a + b) 0
     + optEvents env.timer_events
     + optEvents env.session_timeouts
     + optEvents env.stat_events,
   Step.transport :: (env.naming_events.map fun _ => Step.naming)
     ++ (env.processor_events.map fun _ => Step.processor)
     ++ (match env.timer_events with | some _ => [Step.timer] | none => [])
     ++ (match env.session_timeouts with | some _ => [Step.session] | none => [])
     ++ (match env.stat_events with | some _ => [Step.stat] | none => []))

/-- The return value Claim C4 ascribes to `Update`: the number of events
processed across all the sub-steps, processor ticks included.  Stated from
the claim's words, to be compared with what `Update` actually returns. -/
def claimedEventTotal (env : UpdateEnv) : Int :=
  env.message_events
    + env.naming_events.foldl (fun a b => a + b) 0
    + env.processor_events.foldl (fun a b => a + b) 0
    + optEvents env.timer_events
    + optEvents env.session_timeouts
    + optEvents env.stat_events

/-- The position of a sub-step in the fixed order Claim C4 describes. -/
def stepRank : Step → Nat
  | .transport => 0
  | .naming => 1
  | .processor => 2
  | .timer => 3
  | .session => 4
  | .stat => 5

/-- The sequence of sub-steps in the order the spec fixes for one tick:
(1) transport pump, (2) one refresh per active naming backend, (3) one tick
per active processor, (4) timer firing, (5) pending-RPC timeout expiry,
(6) statistics update — skipping the steps whose component is absent.
Stated from the claim's words, to be compared with the call order `Update`
performs. -/
def claimedTickOrder (env : UpdateEnv) : List Step :=
  [Step.transport]
    ++ List.replicate env.naming_events.length Step.naming
    ++ List.replicate env.processor_events.length Step.processor
    ++ (if env.timer_events.isSome then [Step.timer] else [])
    ++ (if env.session_timeouts.isSome then [Step.session] else [])
    ++ (if env.stat_events.isSome then [Step.stat] else [])

theorem pairwise_replicate_of_rel {α : Type} {R : α → α → Prop} {c : α} (h : R c c)
    (n : Nat) : (List.replicate n c).Pairwise R := by
  induction n with
  | zero => exact List.Pairwise.nil
  | succ k ih =>
    rw [List.replicate_succ]
    refine List.Pairwise.cons (fun b hb => ?_) ih
    rw [List.eq_of_mem_replicate hb]
    exact h

theorem claimedTickOrder_sorted (env : UpdateEnv) :
    (claimedTickOrder env).Pairwise (fun a b => stepRank a ≤ stepRank b) := by
  obtain ⟨m, ns, ps, t, s, sm⟩ := env
  unfold claimedTickOrder
  simp only [List.pairwise_append, List.pairwise_cons, List.mem_append,
    List.mem_replicate, List.mem_singleton, List.mem_cons, List.not_mem_nil]
  cases t <;> cases s <;> cases sm <;>
    repeat' first
      | exact pairwise_replicate_of_rel (le_refl _) _
      | (intro a ha; cases a <;> simp_all [stepRank])
      | constructor
      | simp [stepRank]

/-- Counterexample to Claim C4: in a pass whose only events are 5 events
processed by a processor's tick, `Update` returns 0, not the claimed total
of events processed across the sub-steps. -/
theorem C4_counterexample :
    (Update ⟨0, [], [5], some 0, some 0, some 0⟩).1 = 0 ∧
    claimedEventTotal ⟨0, [], [5], some 0, some 0, some 0⟩ = 5 ∧
    (Update ⟨0, [], [5], some 0, some 0, some 0⟩).1 ≠
      claimedEventTotal ⟨0, [], [5], some 0, some 0, some 0⟩ := by
  refine ⟨rfl, rfl, by decide⟩

/-- Claim C4 amended: `Update` executes its sub-steps in the fixed order
transport pump, naming refresh, processor ticks, timer firing, pending-RPC
timeout expiry, statistics update, and returns the events counted by the
transport, naming, timer, session-timeout and statistics sub-steps; the
processor ticks run in their slot of the order, but the events they process
are not included in the returned count. -/
theorem C4_tick_order_and_count (env : UpdateEnv) :
    (Update env).2 = claimedTickOrder env ∧
    ((Update env).2).Pairwise (fun a b => stepRank a ≤ stepRank b) ∧
    (Update env).1 =
      env.message_events
        + env.naming_events.foldl (fun a b => a + b) 0
        + optEvents env.timer_events
        + optEvents env.session_timeouts
        + optEvents env.stat_events := by
  have horder : (Update env).2 = claimedTickOrder env := by
    obtain ⟨m, ns, ps, t, s, sm⟩ := env
    cases t <;> cases s <;> cases sm <;>
      simp [Update, claimedTickOrder, List.map_const']
  exact ⟨horder, horder ▸ claimedTickOrder_sorted env, rfl⟩

/-- Environment for `PebbleClient::Init`: the return values of the
subordinate initializations the code performs, in program order:
`InitTimer`, `InitCoSchedule`, `InitStat`, `Message::Init` (transport
registration) and `SetRouterFactory`. -/
structure InitEnv where
  timer_ret : Int
  co_schedule_ret : Int
  stat_ret : Int
  message_ret : Int
  router_factory_ret : Int
deriving DecidableEq

/-- Embedding of `PebbleClient::Init()`: each subordinate result goes through
`CHECK_RETURN(ret)`, which is `if (ret) return -1;` — any non-zero result
aborts with -1; when every step succeeds the function returns 0. -/
def InitClient (env : InitEnv) : Int :=
  if env.timer_ret ≠ 0 then -1
  else if env.co_schedule_ret ≠ 0 then -1
  else if env.stat_ret ≠ 0 then -1
  else if env.message_ret ≠ 0 then -1
  else if env.router_factory_ret ≠ 0 then -1
  else 0

/-- Counterexample to Claim C5: a failing timer initialization and a failing
cooperative-scheduler initialization produce the same code -1, so the codes
returned for different failing subsystems are not distinct from one
another. -/
theorem C5_counterexample :
    InitClient ⟨1, 0, 0, 0, 0⟩ = InitClient ⟨0, 1, 0, 0, 0⟩ ∧
    InitClient ⟨1, 0, 0, 0, 0⟩ = InitClient ⟨0, 0, 1, 0, 0⟩ ∧
    InitClient ⟨1, 0, 0, 0, 0⟩ = InitClient ⟨0, 0, 0, 1, 0⟩ ∧
    InitClient ⟨1, 0, 0, 0, 0⟩ ≠ 0 := by
  refine ⟨rfl, rfl, rfl, by decide⟩

/-- Claim C5 amended: if any subordinate subsystem's initialization fails,
`Init` returns the non-zero code -1; the code is the same -1 for every
failing subsystem, not a distinct code per subsystem; when every subsystem
succeeds `Init` returns 0. -/
theorem C5_init_failure_code (env : InitEnv) :
    ((env.timer_ret ≠ 0 ∨ env.co_schedule_ret ≠ 0 ∨ env.stat_ret ≠ 0 ∨
        env.message_ret ≠ 0 ∨ env.router_factory_ret ≠ 0) →
      InitClient env = -1) ∧
    ((env.timer_ret = 0 ∧ env.co_schedule_ret = 0 ∧ env.stat_ret = 0 ∧
        env.message_ret = 0 ∧ env.router_factory_ret = 0) →
      InitClient env = 0) := by
  constructor
  · intro h
    unfold InitClient
    rcases h with h | h | h | h | h <;> simp [h]
  · rintro ⟨h1, h2, h3, h4, h5⟩
    simp [InitClient, h1, h2, h3, h4, h5]

theorem C5_init_failure_code_witness :
    InitClient ⟨0, 0, -3, 0, 0⟩ = -1 ∧ InitClient ⟨0, 0, 0, 0, 0⟩ = 0 :=
  ⟨(C5_init_failure_code ⟨0, 0, -3, 0, 0⟩).1 (Or.inr (Or.inr (Or.inl (by decide)))),
   (C5_init_failure_code ⟨0, 0, 0, 0, 0⟩).2 ⟨rfl, rfl, rfl, rfl, rfl⟩⟩

/-- Router types: `kROUTER_DEFAULT` is 0 (enum `RouterType`). -/
abbrev RouterType := Nat

def kROUTER_DEFAULT : RouterType := 0

/-- State of `PebbleClient` relevant to `GetRouter`: `m_router_map` (name to
`Router*`), a counter allocating fresh `Router*` identities for
`factory->GetRouter(name)`, and the registered router factories
(`Init` installs the default factory at `kROUTER_DEFAULT`). -/
structure RouterClientState where
  router_map : String → Option Nat
  next_router : Nat
  router_factory : RouterType → Bool

/-- Result of one `PebbleClient::GetRouter` call: the returned `Router*`
(NULL = `none`), the state after the call, the routers on which
`router->Init(GetNaming())` was invoked during the call, and the number of
`PLOG_ERROR` emissions. -/
structure GetRouterResult where
  router : Option Nat
  state : RouterClientState
  init_calls : List Nat
  error_logs : Nat

/-- Embedding of `PebbleClient::GetRouter(name, router_type)`: an empty name is a logged
caller error returning NULL; a cached name returns the cached `Router*`;
otherwise, with a registered factory, a fresh router is created,
`router->Init` is called — its failure (`init_ret` non-zero per router
identity) is only logged — and the router is cached and returned
unconditionally. -/
def GetRouter (st : RouterClientState) (init_ret : Nat → Int) (name : String)
    (router_type : RouterType) : GetRouterResult :=
  if name = "" then ⟨none, st, [], 1⟩
  else
    match st.router_map name with
    | some r => ⟨some r, st, [], 0⟩
    | none =>
      if st.router_factory router_type then
        let r := st.next_router
        ⟨some r,
         { st with
             router_map := fun n => if n = name then some r else st.router_map n,
             next_router := r + 1 },
         [r],
         if init_ret r ≠ 0 then 1 else 0⟩
      else ⟨none, st, [], 1⟩

/-- Claim C6: for a non-empty name and a registered factory, two consecutive
`GetRouter(name, t)` calls return the identical non-NULL router (created
once, cached); `GetRouter("", t)` fails with a logged caller error and
returns no router, leaving the state untouched. -/
theorem C6_getrouter_cached (st : RouterClientState) (init_ret : Nat → Int)
    (name : String) (t : RouterType) (hname : name ≠ "")
    (hfac : st.router_factory t = true) :
    ((GetRouter st init_ret name t).router.isSome ∧
      (GetRouter (GetRouter st init_ret name t).state init_ret name t).router =
        (GetRouter st init_ret name t).router ∧
      (GetRouter (GetRouter st init_ret name t).state init_ret name t).state =
        (GetRouter st init_ret name t).state) ∧
    ((GetRouter st init_ret "" t).router = none ∧
      (GetRouter st init_ret "" t).error_logs = 1 ∧
      (GetRouter st init_ret "" t).state = st) := by
  refine ⟨?_, by simp [GetRouter], by simp [GetRouter], by simp [GetRouter]⟩
  unfold GetRouter
  cases hm : st.router_map name with
  | some r => simp [hname, hm]
  | none => simp [hname, hm, hfac]

theorem C6_getrouter_cached_witness :
    (GetRouter ⟨fun _ => none, 0, fun t => t = 0⟩ (fun _ => 0) "svc-a" 0).router =
      some 0 ∧
    (GetRouter (GetRouter ⟨fun _ => none, 0, fun t => t = 0⟩ (fun _ => 0) "svc-a"
        0).state (fun _ => 0) "svc-a" 0).router = some 0 ∧
    (GetRouter ⟨fun _ => none, 0, fun t => t = 0⟩ (fun _ => 0) "" 0).router = none := by
  have h := C6_getrouter_cached ⟨fun _ => none, 0, fun t => t = 0⟩ (fun _ => 0)
    "svc-a" 0 (by decide) (by decide)
  have h1 : (GetRouter ⟨fun _ => none, 0, fun t => t = 0⟩ (fun _ => 0) "svc-a"
      0).router = some 0 := rfl
  exact ⟨h1, by rw [h.1.2.1, h1], h.2.1⟩

/-- Claim C10: when the freshly created router's `Init` fails (non-zero),
`GetRouter` still returns that router, logs one error, caches the router
under the name, and a later `GetRouter` with the same name returns the very
same router without ever calling `Init` again. -/
theorem C10_getrouter_init_failure_cached (st : RouterClientState)
    (init_ret : Nat → Int) (name : String) (t : RouterType) (hname : name ≠ "")
    (hfac : st.router_factory t = true) (hmiss : st.router_map name = none)
    (hfail : init_ret st.next_router ≠ 0) :
    (GetRouter st init_ret name t).router = some st.next_router ∧
    (GetRouter st init_ret name t).init_calls = [st.next_router] ∧
    (GetRouter st init_ret name t).error_logs = 1 ∧
    (GetRouter st init_ret name t).state.router_map name = some st.next_router ∧
    (GetRouter (GetRouter st init_ret name t).state init_ret name t).router =
      some st.next_router ∧
    (GetRouter (GetRouter st init_ret name t).state init_ret name t).init_calls =
      [] := by
  unfold GetRouter
  simp [hname, hmiss, hfac, hfail]

theorem C10_getrouter_init_failure_cached_witness :
    (GetRouter ⟨fun _ => none, 3, fun t => t = 0⟩ (fun _ => -2) "svc-a" 0).router =
      some 3 ∧
    (GetRouter ⟨fun _ => none, 3, fun t => t = 0⟩ (fun _ => -2) "svc-a"
        0).error_logs = 1 ∧
    (GetRouter (GetRouter ⟨fun _ => none, 3, fun t => t = 0⟩ (fun _ => -2) "svc-a"
        0).state (fun _ => -2) "svc-a" 0).init_calls = [] := by
  have h := C10_getrouter_init_failure_cached ⟨fun _ => none, 3, fun t => t = 0⟩
    (fun _ => -2) "svc-a" 0 (by decide) (by decide) rfl (by decide)
  exact ⟨h.1, h.2.2.1, h.2.2.2.2.2⟩

/-- Lexicographic comparison of character lists, the order
`std::string::compare(rhs) < 0` computes. -/
def lexLtB : List Char → List Char → Bool
  | [], [] => false
  | [], _ :: _ => true
  | _ :: _, [] => false
  | x :: xs, y :: ys =>
    if x < y then true
    else if y < x then false
    else lexLtB xs ys

theorem lexLtB_irrefl : ∀ l : List Char, lexLtB l l = false := by
  intro l
  induction l with
  | nil => rfl
  | cons x xs ih =>
    unfold lexLtB
    rw [if_neg (lt_irrefl x), if_neg (lt_irrefl x)]
    exact ih

theorem lexLtB_eq_of_not {a : List Char} :
    ∀ {b : List Char}, lexLtB a b = false → lexLtB b a = false → a = b := by
  induction a with
  | nil =>
    intro b h1 h2
    cases b with
    | nil => rfl
    | cons y ys => exact absurd h1 (by simp [lexLtB])
  | cons x xs ih =>
    intro b h1 h2
    cases b with
    | nil => exact absurd h2 (by simp [lexLtB])
    | cons y ys =>
      unfold lexLtB at h1 h2
      by_cases hxy : x < y
      · rw [if_pos hxy] at h1
        exact absurd h1 (by simp)
      · rw [if_neg hxy] at h1
        by_cases hyx : y < x
        · rw [if_pos hyx] at h2
          exact absurd h2 (by simp)
        · rw [if_neg hyx] at h1
          rw [if_neg hyx, if_neg hxy] at h2
          have hx : x = y := le_antisymm (not_lt.mp hyx) (not_lt.mp hxy)
          rw [hx, ih h1 h2]

theorem lexLtB_trans {a : List Char} :
    ∀ {b c : List Char}, lexLtB a b = true → lexLtB b c = true → lexLtB a c = true := by
  induction a with
  | nil =>
    intro b c h1 h2
    cases b with
    | nil => exact absurd h1 (by simp [lexLtB])
    | cons y ys =>
      cases c with
      | nil => exact absurd h2 (by simp [lexLtB])
      | cons z zs => rfl
  | cons x xs ih =>
    intro b c h1 h2
    cases b with
    | nil => exact absurd h1 (by simp [lexLtB])
    | cons y ys =>
      cases c with
      | nil => exact absurd h2 (by simp [lexLtB])
      | cons z zs =>
        unfold lexLtB at h1 h2 ⊢
        by_cases hxy : x < y
        · by_cases hyz : y < z
          · rw [if_pos (lt_trans hxy hyz)]
          · rw [if_neg hyz] at h2
            by_cases hzy : z < y
            · rw [if_pos hzy] at h2
              exact absurd h2 (by simp)
            · have hyz2 : y = z := le_antisymm (not_lt.mp hzy) (not_lt.mp hyz)
              rw [if_pos (hyz2 ▸ hxy)]
        · rw [if_neg hxy] at h1
          by_cases hyx : y < x
          · rw [if_pos hyx] at h1
            exact absurd h1 (by simp)
          · rw [if_neg hyx] at h1
            have hxy2 : x = y := le_antisymm (not_lt.mp hyx) (not_lt.mp hxy)
            by_cases hyz : y < z
            · rw [if_pos (hxy2 ▸ hyz)]
            · rw [if_neg hyz] at h2
              by_cases hzy : z < y
              · rw [if_pos hzy] at h2
                exact absurd h2 (by simp)
              · rw [if_neg hzy] at h2
                have hyz2 : y = z := le_antisymm (not_lt.mp hzy) (not_lt.mp hyz)
                have hxz : ¬ x < z := by
                  rw [hxy2, hyz2]
                  exact lt_irrefl z
                have hzx : ¬ z < x := by
                  rw [hxy2, hyz2]
                  exact lt_irrefl z
                rw [if_neg hxz, if_neg hzx]
                exact ih h1 h2

/-- Strict lexicographic order on strings: `a.compare(b) < 0` on `std::string`. -/
def pathLt (a b : String) : Prop := lexLtB a.data b.data = true

instance (a b : String) : Decidable (pathLt a b) :=
  inferInstanceAs (Decidable (lexLtB a.data b.data = true))

theorem pathLt_trans {a b c : String} (h1 : pathLt a b) (h2 : pathLt b c) :
    pathLt a c := lexLtB_trans h1 h2

theorem pathLt_irrefl (a : String) : ¬ pathLt a a := by
  unfold pathLt
  rw [lexLtB_irrefl]
  simp

theorem pathLt_eq {a b : String} (h1 : ¬ pathLt a b) (h2 : ¬ pathLt b a) : a = b := by
  have hf1 : lexLtB a.data b.data = false := by
    cases h : lexLtB a.data b.data with
    | true => exact absurd h h1
    | false => rfl
  have hf2 : lexLtB b.data a.data = false := by
    cases h : lexLtB b.data a.data with
    | true => exact absurd h h2
    | false => rfl
  have hd := lexLtB_eq_of_not hf1 hf2
  cases a
  cases b
  simp_all

theorem pathLt_ne {a b : String} (h : pathLt a b) : a ≠ b := by
  intro he
  exact pathLt_irrefl b (he ▸ h)

/-- Embedding of `EphemeralNodeInfo` from zookeeper_client.h: `_path`, `_value` and
`_acl_vec` (the ACL vector is opaque here, represented by a tag). -/
structure EphemeralNodeInfo where
  path : String
  value : String
  acl : Nat
deriving DecidableEq

/-- Embedding of `EphemeralNodeInfo::operator<` from the source: ordering by
`_path.compare(rhs._path) < 0` alone — value and ACL are ignored. -/
def ephLt (a b : EphemeralNodeInfo) : Prop := pathLt a.path b.path

/-- Ordered-set insertion for the `std::set<std::string>` bookkeeping members
(`m_auths_set`, `m_get_watch`, `m_get_child_watch`, `m_exist_watch`):
inserting an element already present leaves the set unchanged. -/
def insertStr (s : String) : List String → List String
  | [] => [s]
  | x :: xs =>
    if pathLt s x then s :: x :: xs
    else if pathLt x s then x :: insertStr s xs
    else x :: xs

/-- Modelled from the spec: registration into `m_ephemeral_node` (the
registering code is in zookeeper_client.cpp, which is not available) —
"Uniqueness by path (a set ordered by path; re-registering the same path
replaces the prior value)".  The ordering used is the source's
`EphemeralNodeInfo::operator<`. -/
def insertEph (e : EphemeralNodeInfo) : List EphemeralNodeInfo → List EphemeralNodeInfo
  | [] => [e]
  | x :: xs =>
    if pathLt e.path x.path then e :: x :: xs
    else if pathLt x.path e.path then x :: insertEph e xs
    else e :: xs

/-- Removal of the ephemeral record for a path (`Delete` removes the node's
bookkeeping so recovery will not recreate it). -/
def eraseEph (p : String) : List EphemeralNodeInfo → List EphemeralNodeInfo
  | [] => []
  | x :: xs => if x.path = p then xs else x :: eraseEph p xs

/-- The recorded entry for a path, if any. -/
def lookupEph (p : String) : List EphemeralNodeInfo → Option EphemeralNodeInfo
  | [] => none
  | x :: xs => if x.path = p then some x else lookupEph p xs

/-- The bookkeeping state of `ZookeeperClient`: `m_auths_set`, the three
watch sets `m_get_watch`, `m_get_child_watch`, `m_exist_watch`, and
`m_ephemeral_node`, each a `std::set` modelled as a sorted list. -/
structure ZkState where
  auths : List String
  get_watch : List String
  get_child_watch : List String
  exist_watch : List String
  ephemeral : List EphemeralNodeInfo
deriving DecidableEq

/-- A fresh client: every bookkeeping set empty. -/
def zkInit : ZkState := ⟨[], [], [], [], []⟩

/-- Modelled from the spec: the client operations that touch the bookkeeping
sets (their bodies are in zookeeper_client.cpp, which is not available).
`addAuth` records a credential; the three `arm` operations record a watch
path when a read is issued with the watch flag; `fireWatch` is the watcher
callback firing — firing history is not tracked, so it changes no
bookkeeping; `createEphemeral` records an ephemeral registration;
`deleteNode` removes the ephemeral record at a path.  There is no operation
removing a watch path. -/
inductive ZkOp where
  | addAuth (a : String)
  | armGetWatch (p : String)
  | armChildWatch (p : String)
  | armExistWatch (p : String)
  | fireWatch (p : String)
  | createEphemeral (e : EphemeralNodeInfo)
  | deleteNode (p : String)
deriving DecidableEq

/-- Modelled from the spec: the effect of one client operation on the
bookkeeping sets. -/
def zkStep (st : ZkState) : ZkOp → ZkState
  | .addAuth a => { st with auths := insertStr a st.auths }
  | .armGetWatch p => { st with get_watch := insertStr p st.get_watch }
  | .armChildWatch p => { st with get_child_watch := insertStr p st.get_child_watch }
  | .armExistWatch p => { st with exist_watch := insertStr p st.exist_watch }
  | .fireWatch _ => st
  | .createEphemeral e => { st with ephemeral := insertEph e st.ephemeral }
  | .deleteNode p => { st with ephemeral := eraseEph p st.ephemeral }

/-- Run a history of client operations from a given state. -/
def zkRunFrom (st : ZkState) (ops : List ZkOp) : ZkState :=
  ops.foldl zkStep st

/-- Run a history of client operations from a fresh client. -/
def zkRun (ops : List ZkOp) : ZkState :=
  zkRunFrom zkInit ops

/-- One action issued against the new session during recovery replay. -/
inductive ReplayAction where
  | auth (a : String)
  | createNode (e : EphemeralNodeInfo)
  | armGet (p : String)
  | armChild (p : String)
  | armExist (p : String)
deriving DecidableEq

/-- Modelled from the spec: after a session expires and a new session is
established, the client automatically replays, in this order, every
recorded auth entry, then every recorded ephemeral registration (recreated
at its path with its stored value and ACL), then every watch in the three
watch sets. -/
def sessionReplay (st : ZkState) : List ReplayAction :=
  st.auths.map ReplayAction.auth
    ++ st.ephemeral.map ReplayAction.createNode
    ++ st.get_watch.map ReplayAction.armGet
    ++ st.get_child_watch.map ReplayAction.armChild
    ++ st.exist_watch.map ReplayAction.armExist

/-- The phase of a replay action in the order Claim C2 states: auths first,
then ephemeral recreations, then watch re-arms. -/
def replayRank : ReplayAction → Nat
  | .auth _ => 0
  | .createNode _ => 1
  | .armGet _ => 2
  | .armChild _ => 3
  | .armExist _ => 4

theorem pairwise_of_rank_const (l : List ReplayAction) (k : Nat)
    (h : ∀ a ∈ l, replayRank a = k) :
    l.Pairwise (fun a b => replayRank a ≤ replayRank b) := by
  induction l with
  | nil => exact List.Pairwise.nil
  | cons x xs ih =>
    refine List.Pairwise.cons (fun b hb => ?_)
      (ih fun a ha => h a (List.mem_cons_of_mem x ha))
    rw [h x (List.mem_cons_self x xs), h b (List.mem_cons_of_mem x hb)]

theorem pairwise_cons_seg (k : Nat) (l1 l2 : List ReplayAction)
    (h1 : ∀ a ∈ l1, replayRank a = k)
    (h2 : l2.Pairwise (fun a b => replayRank a ≤ replayRank b))
    (hb : ∀ b ∈ l2, k ≤ replayRank b) :
    ((l1 ++ l2).Pairwise (fun a b => replayRank a ≤ replayRank b)) ∧
    (∀ b ∈ l1 ++ l2, k ≤ replayRank b) := by
  constructor
  · refine List.pairwise_append.mpr ⟨pairwise_of_rank_const l1 k h1, h2, ?_⟩
    intro a ha b hbm
    rw [h1 a ha]
    exact hb b hbm
  · intro b hbm
    rcases List.mem_append.mp hbm with h | h
    · rw [h1 b h]
    · exact hb b h

theorem sessionReplay_sorted (st : ZkState) :
    (sessionReplay st).Pairwise (fun a b => replayRank a ≤ replayRank b) := by
  have hA : ∀ a ∈ st.auths.map ReplayAction.auth, replayRank a = 0 := by
    intro a ha
    obtain ⟨x, _, rfl⟩ := List.mem_map.mp ha
    rfl
  have hB : ∀ a ∈ st.ephemeral.map ReplayAction.createNode, replayRank a = 1 := by
    intro a ha
    obtain ⟨x, _, rfl⟩ := List.mem_map.mp ha
    rfl
  have hC : ∀ a ∈ st.get_watch.map ReplayAction.armGet, replayRank a = 2 := by
    intro a ha
    obtain ⟨x, _, rfl⟩ := List.mem_map.mp ha
    rfl
  have hD : ∀ a ∈ st.get_child_watch.map ReplayAction.armChild, replayRank a = 3 := by
    intro a ha
    obtain ⟨x, _, rfl⟩ := List.mem_map.mp ha
    rfl
  have hE : ∀ a ∈ st.exist_watch.map ReplayAction.armExist, replayRank a = 4 := by
    intro a ha
    obtain ⟨x, _, rfl⟩ := List.mem_map.mp ha
    rfl
  have s1 := pairwise_cons_seg 3 (st.get_child_watch.map ReplayAction.armChild)
    (st.exist_watch.map ReplayAction.armExist) hD
    (pairwise_of_rank_const _ 4 hE)
    (fun b hb => by rw [hE b hb]; exact Nat.le_succ 3)
  have s2 := pairwise_cons_seg 2 (st.get_watch.map ReplayAction.armGet) _ hC s1.1
    (fun b hb => Nat.le_trans (Nat.le_succ 2) (s1.2 b hb))
  have s3 := pairwise_cons_seg 1 (st.ephemeral.map ReplayAction.createNode) _ hB s2.1
    (fun b hb => Nat.le_trans (Nat.le_succ 1) (s2.2 b hb))
  have s4 := pairwise_cons_seg 0 (st.auths.map ReplayAction.auth) _ hA s3.1
    (fun b hb => Nat.zero_le _)
  have goal := s4.1
  unfold sessionReplay
  simpa [List.append_assoc] using goal

theorem mem_insertStr_self (s : String) (l : List String) : s ∈ insertStr s l := by
  induction l with
  | nil => exact List.mem_singleton.mpr rfl
  | cons x xs ih =>
    unfold insertStr
    by_cases h1 : pathLt s x
    · simp [h1]
    · by_cases h2 : pathLt x s
      · simp only [h1, if_neg, h2, if_pos, if_true]
        exact List.mem_cons_of_mem x ih
      · have hxs : x = s := pathLt_eq h2 h1
        subst hxs
        rw [if_neg h1, if_neg h2]
        exact List.mem_cons_self _ _

theorem mem_insertStr_mono {p : String} (s : String) {l : List String}
    (h : p ∈ l) : p ∈ insertStr s l := by
  induction l with
  | nil => cases h
  | cons x xs ih =>
    unfold insertStr
    by_cases h1 : pathLt s x
    · simp only [if_pos h1]
      exact List.mem_cons_of_mem s h
    · by_cases h2 : pathLt x s
      · simp only [if_neg h1, if_pos h2]
        rcases List.mem_cons.mp h with rfl | hmem
        · exact List.mem_cons_self _ _
        · exact List.mem_cons_of_mem x (ih hmem)
      · simp only [if_neg h1, if_neg h2]
        exact h

theorem get_watch_step_mono {p : String} (st : ZkState) (op : ZkOp)
    (h : p ∈ st.get_watch) : p ∈ (zkStep st op).get_watch := by
  cases op with
  | armGetWatch q => exact mem_insertStr_mono q h
  | addAuth a => exact h
  | armChildWatch q => exact h
  | armExistWatch q => exact h
  | fireWatch q => exact h
  | createEphemeral e => exact h
  | deleteNode q => exact h

theorem child_watch_step_mono {p : String} (st : ZkState) (op : ZkOp)
    (h : p ∈ st.get_child_watch) : p ∈ (zkStep st op).get_child_watch := by
  cases op with
  | armChildWatch q => exact mem_insertStr_mono q h
  | addAuth a => exact h
  | armGetWatch q => exact h
  | armExistWatch q => exact h
  | fireWatch q => exact h
  | createEphemeral e => exact h
  | deleteNode q => exact h

theorem exist_watch_step_mono {p : String} (st : ZkState) (op : ZkOp)
    (h : p ∈ st.exist_watch) : p ∈ (zkStep st op).exist_watch := by
  cases op with
  | armExistWatch q => exact mem_insertStr_mono q h
  | addAuth a => exact h
  | armGetWatch q => exact h
  | armChildWatch q => exact h
  | fireWatch q => exact h
  | createEphemeral e => exact h
  | deleteNode q => exact h

theorem armGet_mem_run {p : String} (ops : List ZkOp) (st : ZkState)
    (h : ZkOp.armGetWatch p ∈ ops ∨ p ∈ st.get_watch) :
    p ∈ (zkRunFrom st ops).get_watch := by
  induction ops generalizing st with
  | nil =>
    rcases h with h | h
    · cases h
    · exact h
  | cons op rest ih =>
    refine ih (zkStep st op) ?_
    rcases h with h | h
    · rcases List.mem_cons.mp h with rfl | hmem
      · exact Or.inr (mem_insertStr_self p st.get_watch)
      · exact Or.inl hmem
    · exact Or.inr (get_watch_step_mono st op h)

theorem armChild_mem_run {p : String} (ops : List ZkOp) (st : ZkState)
    (h : ZkOp.armChildWatch p ∈ ops ∨ p ∈ st.get_child_watch) :
    p ∈ (zkRunFrom st ops).get_child_watch := by
  induction ops generalizing st with
  | nil =>
    rcases h with h | h
    · cases h
    · exact h
  | cons op rest ih =>
    refine ih (zkStep st op) ?_
    rcases h with h | h
    · rcases List.mem_cons.mp h with rfl | hmem
      · exact Or.inr (mem_insertStr_self p st.get_child_watch)
      · exact Or.inl hmem
    · exact Or.inr (child_watch_step_mono st op h)

theorem armExist_mem_run {p : String} (ops : List ZkOp) (st : ZkState)
    (h : ZkOp.armExistWatch p ∈ ops ∨ p ∈ st.exist_watch) :
    p ∈ (zkRunFrom st ops).exist_watch := by
  induction ops generalizing st with
  | nil =>
    rcases h with h | h
    · cases h
    · exact h
  | cons op rest ih =>
    refine ih (zkStep st op) ?_
    rcases h with h | h
    · rcases List.mem_cons.mp h with rfl | hmem
      · exact Or.inr (mem_insertStr_self p st.exist_watch)
      · exact Or.inl hmem
    · exact Or.inr (exist_watch_step_mono st op h)

/-- Claim C2: after session recovery the replay issues its actions in the
order auths, then ephemeral recreations (each at its recorded path with its
stored value and ACL), then watch re-arms for the three watch sets; every
recorded auth and ephemeral entry is replayed; and a watch armed anywhere in
the history is re-armed — nothing tracks firing (`fireWatch` leaves the sets
untouched and no operation removes a watch), so this holds even when the
watch fired before the expiry. -/
theorem C2_session_recovery_replay (ops : List ZkOp) :
    ((sessionReplay (zkRun ops)).Pairwise (fun a b => replayRank a ≤ replayRank b)) ∧
    (∀ a ∈ (zkRun ops).auths, ReplayAction.auth a ∈ sessionReplay (zkRun ops)) ∧
    (∀ e ∈ (zkRun ops).ephemeral,
      ReplayAction.createNode e ∈ sessionReplay (zkRun ops)) ∧
    (∀ p, ZkOp.armGetWatch p ∈ ops →
      ReplayAction.armGet p ∈ sessionReplay (zkRun ops)) ∧
    (∀ p, ZkOp.armChildWatch p ∈ ops →
      ReplayAction.armChild p ∈ sessionReplay (zkRun ops)) ∧
    (∀ p, ZkOp.armExistWatch p ∈ ops →
      ReplayAction.armExist p ∈ sessionReplay (zkRun ops)) := by
  refine ⟨sessionReplay_sorted _, fun a ha => ?_, fun e he => ?_,
    fun p hp => ?_, fun p hp => ?_, fun p hp => ?_⟩ <;>
    unfold sessionReplay <;>
    simp only [List.mem_append, List.mem_map]
  · exact Or.inl (Or.inl (Or.inl (Or.inl ⟨a, ha, rfl⟩)))
  · exact Or.inl (Or.inl (Or.inl (Or.inr ⟨e, he, rfl⟩)))
  · exact Or.inl (Or.inl (Or.inr ⟨p, armGet_mem_run ops zkInit (Or.inl hp), rfl⟩))
  · exact Or.inl (Or.inr ⟨p, armChild_mem_run ops zkInit (Or.inl hp), rfl⟩)
  · exact Or.inr ⟨p, armExist_mem_run ops zkInit (Or.inl hp), rfl⟩

theorem C2_session_recovery_replay_witness :
    ReplayAction.armGet "/a/c" ∈ sessionReplay (zkRun
      [ZkOp.addAuth "digest", ZkOp.armGetWatch "/a/c", ZkOp.fireWatch "/a/c",
       ZkOp.createEphemeral ⟨"/a/b", "v", 0⟩]) ∧
    ReplayAction.createNode ⟨"/a/b", "v", 0⟩ ∈ sessionReplay (zkRun
      [ZkOp.addAuth "digest", ZkOp.armGetWatch "/a/c", ZkOp.fireWatch "/a/c",
       ZkOp.createEphemeral ⟨"/a/b", "v", 0⟩]) :=
  ⟨(C2_session_recovery_replay
      [ZkOp.addAuth "digest", ZkOp.armGetWatch "/a/c", ZkOp.fireWatch "/a/c",
       ZkOp.createEphemeral ⟨"/a/b", "v", 0⟩]).2.2.2.1 "/a/c" (by decide),
   (C2_session_recovery_replay
      [ZkOp.addAuth "digest", ZkOp.armGetWatch "/a/c", ZkOp.fireWatch "/a/c",
       ZkOp.createEphemeral ⟨"/a/b", "v", 0⟩]).2.2.1 ⟨"/a/b", "v", 0⟩ (by decide)⟩

theorem mem_insertEph {y e : EphemeralNodeInfo} :
    ∀ {l : List EphemeralNodeInfo}, y ∈ insertEph e l → y = e ∨ y ∈ l := by
  intro l
  induction l with
  | nil =>
    intro h
    exact Or.inl (List.mem_singleton.mp h)
  | cons x xs ih =>
    intro h
    unfold insertEph at h
    by_cases h1 : pathLt e.path x.path
    · rw [if_pos h1] at h
      rcases List.mem_cons.mp h with rfl | h2
      · exact Or.inl rfl
      · exact Or.inr h2
    · rw [if_neg h1] at h
      by_cases h2 : pathLt x.path e.path
      · rw [if_pos h2] at h
        rcases List.mem_cons.mp h with rfl | h3
        · exact Or.inr (List.mem_cons_self _ _)
        · rcases ih h3 with h4 | h4
          · exact Or.inl h4
          · exact Or.inr (List.mem_cons_of_mem x h4)
      · rw [if_neg h2] at h
        rcases List.mem_cons.mp h with rfl | h3
        · exact Or.inl rfl
        · exact Or.inr (List.mem_cons_of_mem x h3)

theorem insertEph_pairwise (e : EphemeralNodeInfo) (l : List EphemeralNodeInfo)
    (h : l.Pairwise ephLt) : (insertEph e l).Pairwise ephLt := by
  induction l with
  | nil =>
    refine List.Pairwise.cons (fun b hb => absurd hb ?_) List.Pairwise.nil
    exact List.not_mem_nil b
  | cons x xs ih =>
    rcases List.pairwise_cons.mp h with ⟨hx, hxs⟩
    unfold insertEph
    by_cases h1 : pathLt e.path x.path
    · rw [if_pos h1]
      refine List.Pairwise.cons (fun b hb => ?_) h
      rcases List.mem_cons.mp hb with rfl | hmem
      · exact h1
      · exact pathLt_trans h1 (hx b hmem)
    · rw [if_neg h1]
      by_cases h2 : pathLt x.path e.path
      · rw [if_pos h2]
        refine List.Pairwise.cons (fun b hb => ?_) (ih hxs)
        rcases mem_insertEph hb with rfl | hmem
        · exact h2
        · exact hx b hmem
      · rw [if_neg h2]
        have hpeq : e.path = x.path := pathLt_eq h1 h2
        refine List.Pairwise.cons (fun b hb => ?_) hxs
        show pathLt e.path b.path
        rw [hpeq]
        exact hx b hb

theorem mem_eraseEph {y : EphemeralNodeInfo} {p : String} :
    ∀ {l : List EphemeralNodeInfo}, y ∈ eraseEph p l → y ∈ l := by
  intro l
  induction l with
  | nil => intro h; cases h
  | cons x xs ih =>
    intro h
    unfold eraseEph at h
    by_cases h1 : x.path = p
    · rw [if_pos h1] at h
      exact List.mem_cons_of_mem x h
    · rw [if_neg h1] at h
      rcases List.mem_cons.mp h with rfl | h2
      · exact List.mem_cons_self y xs
      · exact List.mem_cons_of_mem x (ih h2)

theorem eraseEph_pairwise (p : String) (l : List EphemeralNodeInfo)
    (h : l.Pairwise ephLt) : (eraseEph p l).Pairwise ephLt := by
  induction l with
  | nil => exact List.Pairwise.nil
  | cons x xs ih =>
    rcases List.pairwise_cons.mp h with ⟨hx, hxs⟩
    unfold eraseEph
    by_cases h1 : x.path = p
    · rw [if_pos h1]
      exact hxs
    · rw [if_neg h1]
      exact List.Pairwise.cons (fun b hb => hx b (mem_eraseEph hb)) (ih hxs)

theorem zkRun_ephemeral_sorted (ops : List ZkOp) (st : ZkState)
    (h : st.ephemeral.Pairwise ephLt) :
    (zkRunFrom st ops).ephemeral.Pairwise ephLt := by
  induction ops generalizing st with
  | nil => exact h
  | cons op rest ih =>
    refine ih (zkStep st op) ?_
    cases op with
    | createEphemeral e => exact insertEph_pairwise e _ h
    | deleteNode p => exact eraseEph_pairwise p _ h
    | addAuth a => exact h
    | armGetWatch p => exact h
    | armChildWatch p => exact h
    | armExistWatch p => exact h
    | fireWatch p => exact h

theorem pairwise_path_unique {l : List EphemeralNodeInfo} (h : l.Pairwise ephLt) :
    ∀ e1 ∈ l, ∀ e2 ∈ l, e1.path = e2.path → e1 = e2 := by
  induction l with
  | nil => intro e1 h1; cases h1
  | cons x xs ih =>
    rcases List.pairwise_cons.mp h with ⟨hx, hxs⟩
    intro e1 h1 e2 h2 hp
    rcases List.mem_cons.mp h1 with rfl | h1m
    · rcases List.mem_cons.mp h2 with rfl | h2m
      · rfl
      · have hlt := hx e2 h2m
        unfold ephLt at hlt
        rw [hp] at hlt
        exact absurd hlt (pathLt_irrefl _)
    · rcases List.mem_cons.mp h2 with rfl | h2m
      · have hlt := hx e1 h1m
        unfold ephLt at hlt
        rw [hp] at hlt
        exact absurd hlt (pathLt_irrefl _)
      · exact ih hxs e1 h1m e2 h2m hp

theorem lookupEph_insertEph (p v : String) (a : Nat) (l : List EphemeralNodeInfo) :
    lookupEph p (insertEph ⟨p, v, a⟩ l) = some ⟨p, v, a⟩ := by
  induction l with
  | nil => simp [insertEph, lookupEph]
  | cons x xs ih =>
    unfold insertEph
    simp only
    by_cases h1 : pathLt p x.path
    · rw [if_pos h1]
      unfold lookupEph
      simp
    · rw [if_neg h1]
      by_cases h2 : pathLt x.path p
      · rw [if_pos h2]
        unfold lookupEph
        rw [if_neg (pathLt_ne h2)]
        exact ih
      · rw [if_neg h2]
        unfold lookupEph
        simp

/-- Claim C7: the ephemeral-registration set (ordered by the source's
`operator<`, which compares `_path` only) holds at most one entry per path
after any operation history, and registering an ephemeral node at a path
replaces whatever entry that path had: the recorded entry for the path
afterwards is exactly the new one. -/
theorem C7_ephemeral_unique_replace (ops : List ZkOp) :
    ((zkRun ops).ephemeral.Pairwise ephLt) ∧
    (∀ e1 ∈ (zkRun ops).ephemeral, ∀ e2 ∈ (zkRun ops).ephemeral,
      e1.path = e2.path → e1 = e2) ∧
    (∀ p v a, lookupEph p (insertEph ⟨p, v, a⟩ (zkRun ops).ephemeral) =
      some ⟨p, v, a⟩) := by
  have hs : (zkRun ops).ephemeral.Pairwise ephLt :=
    zkRun_ephemeral_sorted ops zkInit List.Pairwise.nil
  exact ⟨hs, pairwise_path_unique hs, fun p v a => lookupEph_insertEph p v a _⟩

theorem C7_ephemeral_unique_replace_witness :
    (zkRun [ZkOp.createEphemeral ⟨"/a", "x", 1⟩, ZkOp.createEphemeral ⟨"/b", "z", 1⟩,
        ZkOp.createEphemeral ⟨"/a", "y", 2⟩]).ephemeral =
      [⟨"/a", "y", 2⟩, ⟨"/b", "z", 1⟩] ∧
    lookupEph "/b" (insertEph ⟨"/b", "w", 9⟩
      (zkRun [ZkOp.createEphemeral ⟨"/a", "x", 1⟩, ZkOp.createEphemeral ⟨"/b", "z", 1⟩,
        ZkOp.createEphemeral ⟨"/a", "y", 2⟩]).ephemeral) = some ⟨"/b", "w", 9⟩ ∧
    (⟨"/a", "y", 2⟩ : EphemeralNodeInfo) = ⟨"/a", "y", 2⟩ :=
  ⟨by decide,
   (C7_ephemeral_unique_replace [ZkOp.createEphemeral ⟨"/a", "x", 1⟩,
      ZkOp.createEphemeral ⟨"/b", "z", 1⟩,
      ZkOp.createEphemeral ⟨"/a", "y", 2⟩]).2.2 "/b" "w" 9,
   (C7_ephemeral_unique_replace [ZkOp.createEphemeral ⟨"/a", "x", 1⟩,
      ZkOp.createEphemeral ⟨"/b", "z", 1⟩,
      ZkOp.createEphemeral ⟨"/a", "y", 2⟩]).2.1 ⟨"/a", "y", 2⟩ (by decide)
      ⟨"/a", "y", 2⟩ (by decide) rfl⟩

end Pebble
